import Mathlib

/-!
Shallow embedding of `src/http/handle.rs` (the `Handle`/`Request` builder and
the `exec` translation step) from the curl-rust repository.

Modelling conventions:
- The transport engine (`Easy`) is modelled by the *trace* of configuration
  calls (`setopt`) and the terminal `perform` call that `exec` issues; the
  engine's acceptance of an option is modelled as always succeeding, except
  for the URL option set during building, whose outcome is a parameter
  `engine : String → Option ErrCode` (`none` = accepted, `some e` = rejected
  with error code `e`).
- `HashMap<String, Vec<String>>` is modelled as an association list with
  distinct keys in insertion order (`find_or_insert` appends a new key,
  `push` appends a value).  The `headers.iter()` enumeration order used at
  serialization time is *unspecified* for a Rust `HashMap` (hash order), so
  `exec` takes the enumeration as a parameter
  `iter : HeaderMap → List (String × List String)`.
- Byte strings are modelled at the character level (`List Char`); all header
  text in this module is ASCII, so bytes and characters coincide.  The NUL
  terminator byte pushed by the source is `Char.ofNat 0`.
-/

namespace Curl

/-- Error codes returned by the transport engine (`ErrCode` in the source);
the numeric identity of a code is irrelevant here. -/
abbrev ErrCode := Nat

/-- `pub enum Method` from the source: all eight variants are declared, but
only five have an implemented execution path. -/
inductive Method where
  | Options
  | Get
  | Head
  | Post
  | Put
  | Delete
  | Trace
  | Connect
deriving DecidableEq, Repr

/-- The request body abstraction: the only part of `Body` that `exec`
consults is `get_size() -> Option<uint>`. -/
structure Body where
  size : Option Nat
deriving DecidableEq, Repr

/-- `HashMap<String, Vec<String>>`, as an insertion-ordered association list
with distinct keys. -/
abbrev HeaderMap := List (String × List String)

/-- `append_header`: `map.find_or_insert(key, Vec::new()).push(val)`.
The first entry matching the key gets the value appended; a missing key is
inserted at the end with a singleton value list. -/
def append_header (m : HeaderMap) (key val : String) : HeaderMap :=
  match m with
  | [] => [(key, [val])]
  | kv :: rest =>
    if kv.1 = key then (kv.1, kv.2 ++ [val]) :: rest
    else kv :: append_header rest key val

/-- `headers.find_equiv(&name)`: exact-match lookup returning the value
sequence, or absent. -/
def find_equiv (m : HeaderMap) (key : String) : Option (List String) :=
  match m with
  | [] => none
  | kv :: rest => if kv.1 = key then some kv.2 else find_equiv rest key

/-- One call `exec` makes into the transport engine: the `setopt` variants it
uses, plus the terminal `perform`. -/
inductive EngineCall where
  | setFollowLocation (v : Int)
  | clearHeaders
  | setHttpGet (v : Int)
  | setNoBody (v : Int)
  | setPost (v : Int)
  | setUpload (v : Int)
  | setCustomRequest (s : String)
  | setPostFieldSize (n : Nat)
  | setInFileSize (n : Nat)
  | setHeaderList (lines : List (List Char))
  | perform
deriving DecidableEq, Repr

/-- The `struct Request` fields that affect observable behaviour.  The
`progress` callback is modelled by its presence only. -/
structure Request where
  err : Option ErrCode
  method : Method
  headers : HeaderMap
  body : Option Body
  body_type : Bool
  content_type : Bool
  expect_continue : Bool
  progress : Bool
  follow : Bool
deriving DecidableEq, Repr

/-- `Request::new(handle, method)`: every flag false, no headers, no body,
no deferred error. -/
def Request.new (m : Method) : Request :=
  { err := none, method := m, headers := [], body := none, body_type := false,
    content_type := false, expect_continue := false, progress := false,
    follow := false }

/-- `Request::uri`: sets `opt::URL` on the shared session; on engine failure
stores the error in `self.err` (note: the source assigns unconditionally,
with no emptiness check). -/
def Request.uri (r : Request) (engine : String → Option ErrCode) (u : String) : Request :=
  match engine u with
  | none => r
  | some e => { r with err := some e }

/-- `Request::body` (renamed: `body` is the field name): attaches a body,
replacing any previous one. -/
def Request.withBody (r : Request) (b : Body) : Request :=
  { r with body := some b }

/-- `Request::content_length`: guarded by the sticky `body_type` flag;
appends `Content-Length: <n>` on first use, later calls are no-ops. -/
def Request.content_length (r : Request) (len : Nat) : Request :=
  if !r.body_type then
    { r with body_type := true,
             headers := append_header r.headers "Content-Length" (toString len) }
  else r

/-- `Request::chunked`: guarded by the sticky `body_type` flag; appends
`Transfer-Encoding: chunked` on first use, later calls are no-ops. -/
def Request.chunked (r : Request) : Request :=
  if !r.body_type then
    { r with body_type := true,
             headers := append_header r.headers "Transfer-Encoding" "chunked" }
  else r

/-- `Request::expect_continue` (renamed: `expect_continue` is the field
name): sets the flag. -/
def Request.withExpectContinue (r : Request) : Request :=
  { r with expect_continue := true }

/-- `Request::header`: appends to the multimap, never overwrites. -/
def Request.header (r : Request) (name val : String) : Request :=
  { r with headers := append_header r.headers name val }

/-- `Request::get_header`: read-only exact-match lookup. -/
def Request.get_header (r : Request) (name : String) : Option (List String) :=
  find_equiv r.headers name

/-- `Request::headers` (renamed: `headers` is the field name): appends each
pair in iteration order. -/
def Request.withHeaders (r : Request) (hs : List (String × String)) : Request :=
  hs.foldl (fun acc kv => acc.header kv.1 kv.2) r

/-- `Request::progress` (renamed: `progress` is the field name). -/
def Request.withProgress (r : Request) : Request :=
  { r with progress := true }

/-- `Request::follow_redirects`: sets the flag. -/
def Request.follow_redirects (r : Request) (f : Bool) : Request :=
  { r with follow := f }

/-- The method-dispatch `match` in `exec`: the option calls issued for each
method.  `hasBody` is `body.is_some()`.  `none` models the
process-aborting `unimplemented!()` branch for OPTIONS/TRACE/CONNECT. -/
def methodOpts (m : Method) (hasBody : Bool) : Option (List EngineCall) :=
  match m with
  | Method.Get => some [EngineCall.setHttpGet 1]
  | Method.Head => some [EngineCall.setNoBody 1]
  | Method.Post => some [EngineCall.setPost 1]
  | Method.Put => some [EngineCall.setUpload 1]
  | Method.Delete =>
    some ((if hasBody then [EngineCall.setUpload 1] else []) ++
          [EngineCall.setCustomRequest "DELETE"])
  | _ => none

/-- The per-method size-hint option for a body of known length `len`:
`POSTFIELDSIZE` for POST, `INFILESIZE` for PUT and DELETE, nothing
otherwise. -/
def sizeHints (m : Method) (len : Nat) : List EngineCall :=
  match m with
  | Method.Post => [EngineCall.setPostFieldSize len]
  | Method.Put => [EngineCall.setInFileSize len]
  | Method.Delete => [EngineCall.setInFileSize len]
  | _ => []

/-- The `if !body_type { match body.get_size() ... }` step of `exec`: with an
explicit body type, nothing happens; otherwise a known size yields the
per-method size hint and an unknown size appends `Transfer-Encoding:
chunked`. -/
def negotiateSize (m : Method) (b : Body) (body_type : Bool) (headers : HeaderMap) :
    HeaderMap × List EngineCall :=
  if body_type then (headers, [])
  else
    match b.size with
    | some len => (headers, sizeHints m len)
    | none => (append_header headers "Transfer-Encoding" "chunked", [])

/-- The whole body-handling block of `exec` (`match body.as_ref()`): size
negotiation, then the `Content-Type` and `Expect` defaults, each guarded by
its flag.  Returns the mutated header map and the size-hint calls issued. -/
def bodyNegotiation (m : Method) (body : Option Body)
    (body_type content_type expect_continue : Bool) (headers : HeaderMap) :
    HeaderMap × List EngineCall :=
  match body with
  | none => (headers, [])
  | some b =>
    let p := negotiateSize m b body_type headers
    let h1 := if content_type then p.1
              else append_header p.1 "Content-Type" "application/octet-stream"
    let h2 := if expect_continue then h1 else append_header h1 "Expect" ""
    (h2, p.2)

/-- Header serialization (`for (k, v) in headers.iter()`): for each
enumerated entry, one byte line per value, formatted `"<name>: <value>"` and
terminated by a single NUL byte, in value order. -/
def serializeHeaders (entries : List (String × List String)) : List (List Char) :=
  entries.flatMap fun kv =>
    kv.2.map fun v => (kv.1 ++ ": " ++ v).data ++ [Char.ofNat 0]

/-- What running `exec` did: reached `perform`, returned the deferred error,
or hit the `unimplemented!()` abort. -/
inductive Outcome where
  | performed
  | deferred (e : ErrCode)
  | abort
deriving DecidableEq, Repr

/-- The observable result of `exec`: the engine-call trace, how it ended, and
the header multimap after the body-negotiation mutations (the local
`headers` variable at serialization time). -/
structure ExecOut where
  trace : List EngineCall
  outcome : Outcome
  finalHeaders : HeaderMap
deriving DecidableEq, Repr

/-- The redirect-flag step: `if follow { setopt(FOLLOWLOCATION, 1) }`,
issued before the deferred-error check. -/
def followCalls (r : Request) : List EngineCall :=
  if r.follow then [EngineCall.setFollowLocation 1] else []

/-- `Request::exec`, step by step in source order: redirect flag, deferred
error check, header reset (`HTTPHEADER <- 0`), method dispatch, body
negotiation, header serialization (skipped when the map is empty), then
`perform`.  `iter` supplies the `HashMap` enumeration order used at
serialization time (unspecified by the source's hash map). -/
def Request.exec (r : Request) (iter : HeaderMap → List (String × List String)) : ExecOut :=
  match r.err with
  | some e => { trace := followCalls r, outcome := Outcome.deferred e, finalHeaders := r.headers }
  | none =>
    match methodOpts r.method r.body.isSome with
    | none =>
      { trace := followCalls r ++ [EngineCall.clearHeaders],
        outcome := Outcome.abort, finalHeaders := r.headers }
    | some tm =>
      let p := bodyNegotiation r.method r.body r.body_type r.content_type
                 r.expect_continue r.headers
      let hdrCalls := if p.1.isEmpty then []
                      else [EngineCall.setHeaderList (serializeHeaders (iter p.1))]
      { trace := followCalls r ++ [EngineCall.clearHeaders] ++ tm ++ p.2 ++
                 hdrCalls ++ [EngineCall.perform],
        outcome := Outcome.performed,
        finalHeaders := p.1 }

/-- Session state relevant to header leakage: the custom header list
currently installed on the shared transport session. -/
structure SessionState where
  customHeaders : Option (List (List Char))
deriving DecidableEq, Repr

/-- Effect of one engine call on the session's custom header list:
`HTTPHEADER <- 0` clears it, `HTTPHEADER <- list` installs it, everything
else leaves it alone. -/
def applyCall (s : SessionState) : EngineCall → SessionState
  | EngineCall.clearHeaders => { s with customHeaders := none }
  | EngineCall.setHeaderList l => { s with customHeaders := some l }
  | _ => s

/-- Effect of a whole trace on the session state. -/
def applyTrace (s : SessionState) (t : List EngineCall) : SessionState :=
  t.foldl applyCall s

/-- True for the size-hint options (`POSTFIELDSIZE`, `INFILESIZE`). -/
def isSizeHint : EngineCall → Bool
  | EngineCall.setPostFieldSize _ => true
  | EngineCall.setInFileSize _ => true
  | _ => false

/-- The five methods with an implemented execution path. -/
def implementedMethods : List Method :=
  [Method.Get, Method.Head, Method.Post, Method.Put, Method.Delete]

/-- The `Handle::get` factory: `Request::new(self, Get).uri(uri)`. -/
def Handle.get (engine : String → Option ErrCode) (u : String) : Request :=
  (Request.new Method.Get).uri engine u

/-- The `Handle::head` factory. -/
def Handle.head (engine : String → Option ErrCode) (u : String) : Request :=
  (Request.new Method.Head).uri engine u

/-- The `Handle::post` factory: URI, then body. -/
def Handle.post (engine : String → Option ErrCode) (u : String) (b : Body) : Request :=
  ((Request.new Method.Post).uri engine u).withBody b

/-- The `Handle::put` factory: URI, then body. -/
def Handle.put (engine : String → Option ErrCode) (u : String) (b : Body) : Request :=
  ((Request.new Method.Put).uri engine u).withBody b

/-- The `Handle::delete` factory. -/
def Handle.delete (engine : String → Option ErrCode) (u : String) : Request :=
  (Request.new Method.Delete).uri engine u

/-- The header map `exec` holds at serialization time (the local `headers`
variable after the body-negotiation mutations). -/
def negotiatedHeaders (r : Request) : HeaderMap :=
  (bodyNegotiation r.method r.body r.body_type r.content_type r.expect_continue r.headers).1

/-- The size-hint calls `exec` issues during body negotiation. -/
def hintCalls (r : Request) : List EngineCall :=
  (bodyNegotiation r.method r.body r.body_type r.content_type r.expect_continue r.headers).2

/-- The header-list installation call, skipped when the map is empty. -/
def headerListCalls (iter : HeaderMap → List (String × List String)) (r : Request) :
    List EngineCall :=
  if (negotiatedHeaders r).isEmpty then []
  else [EngineCall.setHeaderList (serializeHeaders (iter (negotiatedHeaders r)))]

/-- Everything `exec` does after the header reset: method dispatch, size
hints, header serialization, perform (empty when the method dispatch
aborts). -/
def afterClear (iter : HeaderMap → List (String × List String)) (r : Request) :
    List EngineCall :=
  match methodOpts r.method r.body.isSome with
  | none => []
  | some tm => tm ++ hintCalls r ++ headerListCalls iter r ++ [EngineCall.perform]

/-- A sample engine that rejects the URI `"a"` with code 1 and `"b"` with
code 2 and accepts everything else. -/
def rejectEngine : String → Option ErrCode :=
  fun s => if s = "a" then some 1 else if s = "b" then some 2 else none

/-- A sample engine that accepts every URI. -/
def acceptEngine : String → Option ErrCode :=
  fun _ => none

/-- A GET request with two distinct custom header names, inserted `"A"`
before `"B"`. -/
def twoHdrReq : Request :=
  ((Request.new Method.Get).header "A" "1").header "B" "2"

/-- Requests constructible through the crate's public API: `Request::new` is
private, so every `Request` starts from one of the five `Handle` factories
(each of which applies the URI, and `post`/`put` also attach the body) and
grows only by the public builder methods. -/
inductive Built : Request → Prop where
  | get : ∀ engine u, Built (Handle.get engine u)
  | head : ∀ engine u, Built (Handle.head engine u)
  | post : ∀ engine u b, Built (Handle.post engine u b)
  | put : ∀ engine u b, Built (Handle.put engine u b)
  | delete : ∀ engine u, Built (Handle.delete engine u)
  | uri : ∀ r engine u, Built r → Built (r.uri engine u)
  | withBody : ∀ r b, Built r → Built (r.withBody b)
  | content_length : ∀ r n, Built r → Built (r.content_length n)
  | chunked : ∀ r, Built r → Built r.chunked
  | withExpectContinue : ∀ r, Built r → Built r.withExpectContinue
  | header : ∀ r n v, Built r → Built (r.header n v)
  | withHeaders : ∀ r hs, Built r → Built (r.withHeaders hs)
  | withProgress : ∀ r, Built r → Built r.withProgress
  | follow_redirects : ∀ r f, Built r → Built (r.follow_redirects f)

/-! ### Header-multimap lemmas -/

/-- Appending under a key extends that key's value sequence (creating a
singleton when the key is absent). -/
theorem find_equiv_append_self (m : HeaderMap) (k v : String) :
    find_equiv (append_header m k v) k = some ((find_equiv m k).getD [] ++ [v]) := by
  induction m with
  | nil => simp [append_header, find_equiv]
  | cons kv rest ih =>
    by_cases h : kv.1 = k
    · simp [append_header, find_equiv, h]
    · simp [append_header, find_equiv, h, ih]

/-- Appending under one key leaves lookups of other keys unchanged. -/
theorem find_equiv_append_other (m : HeaderMap) (k k' v : String) (hne : k' ≠ k) :
    find_equiv (append_header m k v) k' = find_equiv m k' := by
  have hne' : k ≠ k' := fun h => hne h.symm
  induction m with
  | nil => simp [append_header, find_equiv, hne']
  | cons kv rest ih =>
    by_cases h : kv.1 = k
    · have h2 : ¬kv.1 = k' := by rw [h]; exact hne'
      simp [append_header, find_equiv, h, h2, hne']
    · by_cases h' : kv.1 = k'
      · simp [append_header, find_equiv, h, h', hne]
      · simp [append_header, find_equiv, h, h', ih]

/-- An appended-to map is never empty. -/
theorem append_header_ne_nil (m : HeaderMap) (k v : String) :
    append_header m k v ≠ [] := by
  cases m with
  | nil => simp [append_header]
  | cons kv rest =>
    by_cases h : kv.1 = k <;> simp [append_header, h]

/-! ### Builder frame lemmas: which fields each builder call touches -/

theorem uri_method (r : Request) (engine : String → Option ErrCode) (u : String) :
    (r.uri engine u).method = r.method := by
  unfold Request.uri; cases engine u <;> rfl

theorem uri_headers (r : Request) (engine : String → Option ErrCode) (u : String) :
    (r.uri engine u).headers = r.headers := by
  unfold Request.uri; cases engine u <;> rfl

theorem content_length_method (r : Request) (n : Nat) :
    (r.content_length n).method = r.method := by
  unfold Request.content_length; by_cases h : r.body_type <;> simp [h]

theorem chunked_method (r : Request) :
    r.chunked.method = r.method := by
  unfold Request.chunked; by_cases h : r.body_type <;> simp [h]

theorem withHeaders_method (r : Request) (hs : List (String × String)) :
    (r.withHeaders hs).method = r.method := by
  unfold Request.withHeaders
  induction hs generalizing r with
  | nil => rfl
  | cons kv rest ih => simpa [Request.header] using ih { r with headers := append_header r.headers kv.1 kv.2 }

/-- Every request reachable through the public API carries one of the five
implemented methods. -/
theorem built_method_implemented (r : Request) (h : Built r) :
    r.method ∈ implementedMethods := by
  induction h with
  | get engine u => simp [Handle.get, uri_method, Request.new, implementedMethods]
  | head engine u => simp [Handle.head, uri_method, Request.new, implementedMethods]
  | post engine u b => simp [Handle.post, Request.withBody, uri_method, Request.new, implementedMethods]
  | put engine u b => simp [Handle.put, Request.withBody, uri_method, Request.new, implementedMethods]
  | delete engine u => simp [Handle.delete, uri_method, Request.new, implementedMethods]
  | uri r engine u _ ih => simpa [uri_method] using ih
  | withBody r b _ ih => simpa [Request.withBody] using ih
  | content_length r n _ ih => simpa [content_length_method] using ih
  | chunked r _ ih => simpa [chunked_method] using ih
  | withExpectContinue r _ ih => simpa [Request.withExpectContinue] using ih
  | header r n v _ ih => simpa [Request.header] using ih
  | withHeaders r hs _ ih => simpa [withHeaders_method] using ih
  | withProgress r _ ih => simpa [Request.withProgress] using ih
  | follow_redirects r f _ ih => simpa [Request.follow_redirects] using ih

/-! ### exec unfolding lemmas -/

/-- With a recorded deferred error, `exec` stops right after the redirect
flag. -/
theorem exec_deferred (iter : HeaderMap → List (String × List String)) (r : Request)
    (e : ErrCode) (h : r.err = some e) :
    r.exec iter = { trace := followCalls r, outcome := Outcome.deferred e,
                    finalHeaders := r.headers } := by
  simp [Request.exec, h]

/-- Without a deferred error, the trace is the redirect flag, the header
reset, then `afterClear`. -/
theorem exec_trace_structure (iter : HeaderMap → List (String × List String)) (r : Request)
    (h : r.err = none) :
    (r.exec iter).trace = followCalls r ++ [EngineCall.clearHeaders] ++ afterClear iter r := by
  unfold Request.exec afterClear
  rw [h]
  cases hm : methodOpts r.method r.body.isSome with
  | none => simp
  | some tm =>
    simp [negotiatedHeaders, hintCalls, headerListCalls]

/-- Without a deferred error and with an implemented method, `exec` reaches
`perform` with the negotiated headers. -/
theorem exec_performed (iter : HeaderMap → List (String × List String)) (r : Request)
    (tm : List EngineCall) (h : r.err = none)
    (hm : methodOpts r.method r.body.isSome = some tm) :
    r.exec iter =
      { trace := followCalls r ++ [EngineCall.clearHeaders] ++ tm ++ hintCalls r ++
                 headerListCalls iter r ++ [EngineCall.perform],
        outcome := Outcome.performed,
        finalHeaders := negotiatedHeaders r } := by
  unfold Request.exec
  rw [h, hm]
  simp [negotiatedHeaders, hintCalls, headerListCalls]

/-- An implemented method always has dispatch calls. -/
theorem implemented_methodOpts (m : Method) (hasBody : Bool)
    (h : m ∈ implementedMethods) : ∃ tm, methodOpts m hasBody = some tm := by
  cases m <;> simp_all [implementedMethods, methodOpts]

/-- Method-dispatch calls contain no size hints. -/
theorem methodOpts_no_sizeHint (m : Method) (hasBody : Bool) (tm : List EngineCall)
    (h : methodOpts m hasBody = some tm) : tm.filter isSizeHint = [] := by
  cases m <;> cases hasBody <;> simp [methodOpts] at h <;> rw [← h] <;> decide

/-- Size-hint calls are all size hints. -/
theorem sizeHints_filter (m : Method) (n : Nat) :
    (sizeHints m n).filter isSizeHint = sizeHints m n := by
  cases m <;> simp [sizeHints, isSizeHint]

/-- Characterization of the size-hint calls issued by body negotiation. -/
theorem hintCalls_eq (r : Request) :
    hintCalls r =
      match r.body with
      | none => []
      | some b =>
        if r.body_type then []
        else match b.size with
             | some len => sizeHints r.method len
             | none => [] := by
  unfold hintCalls bodyNegotiation negotiateSize
  cases r.body with
  | none => rfl
  | some b =>
    by_cases hbt : r.body_type
    · simp [hbt]
    · rcases b with ⟨bs⟩
      cases bs <;> simp [hbt]

/-! ### negotiated-header lookup lemmas -/

/-- `exec` aborts when the method dispatch is unimplemented, right after the
header reset. -/
theorem exec_abort (iter : HeaderMap → List (String × List String)) (r : Request)
    (h : r.err = none) (hm : methodOpts r.method r.body.isSome = none) :
    r.exec iter = { trace := followCalls r ++ [EngineCall.clearHeaders],
                    outcome := Outcome.abort, finalHeaders := r.headers } := by
  unfold Request.exec
  rw [h, hm]

/-- Without a body, `exec` leaves the header map untouched (in every
branch). -/
theorem finalHeaders_body_none (iter : HeaderMap → List (String × List String))
    (r : Request) (hb : r.body = none) :
    (r.exec iter).finalHeaders = r.headers := by
  cases hr : r.err with
  | some e => rw [exec_deferred iter r e hr]
  | none =>
    cases htm : methodOpts r.method r.body.isSome with
    | none => rw [exec_abort iter r hr htm]
    | some tm =>
      rw [exec_performed iter r tm hr htm]
      simp [negotiatedHeaders, bodyNegotiation, hb]

/-- Size negotiation only ever touches the `Transfer-Encoding` key. -/
theorem negotiateSize_lookup_other (m : Method) (b : Body) (bt : Bool)
    (hs : HeaderMap) (K : String) (hK : K ≠ "Transfer-Encoding") :
    find_equiv (negotiateSize m b bt hs).1 K = find_equiv hs K := by
  unfold negotiateSize
  by_cases hbt : bt <;> cases hsz : b.size <;>
    simp [hbt, hsz, find_equiv_append_other _ _ _ _ hK]

/-- The negotiated header map with a body, written out. -/
theorem negotiatedHeaders_some (r : Request) (b : Body) (hb : r.body = some b) :
    negotiatedHeaders r =
      (if r.expect_continue then
        (if r.content_type then (negotiateSize r.method b r.body_type r.headers).1
         else append_header (negotiateSize r.method b r.body_type r.headers).1
                "Content-Type" "application/octet-stream")
       else append_header
         (if r.content_type then (negotiateSize r.method b r.body_type r.headers).1
          else append_header (negotiateSize r.method b r.body_type r.headers).1
                 "Content-Type" "application/octet-stream")
         "Expect" "") := by
  unfold negotiatedHeaders bodyNegotiation
  rw [hb]

/-- Keys other than `Content-Type` and `Expect` see only the size
negotiation. -/
theorem negotiatedHeaders_lookup_frame (r : Request) (b : Body) (hb : r.body = some b)
    (K : String) (h1 : K ≠ "Content-Type") (h2 : K ≠ "Expect") :
    find_equiv (negotiatedHeaders r) K =
      find_equiv (negotiateSize r.method b r.body_type r.headers).1 K := by
  rw [negotiatedHeaders_some r b hb]
  by_cases hct : r.content_type <;> by_cases hec : r.expect_continue <;>
    simp [hct, hec, find_equiv_append_other _ _ _ _ h1,
          find_equiv_append_other _ _ _ _ h2]

/-- With a body and no explicit Content-Type, negotiation synthesizes
exactly `Content-Type: application/octet-stream`. -/
theorem negotiatedHeaders_lookup_CT (r : Request) (b : Body) (hb : r.body = some b)
    (hct : r.content_type = false)
    (hnone : find_equiv r.headers "Content-Type" = none) :
    find_equiv (negotiatedHeaders r) "Content-Type"
      = some ["application/octet-stream"] := by
  rw [negotiatedHeaders_some r b hb]
  have hfr : find_equiv (negotiateSize r.method b r.body_type r.headers).1
      "Content-Type" = none := by
    rw [negotiateSize_lookup_other _ _ _ _ _ (by decide)]
    exact hnone
  by_cases hec : r.expect_continue <;>
    simp [hct, hec, find_equiv_append_other _ _ _ _
            (by decide : "Content-Type" ≠ "Expect"),
          find_equiv_append_self, hfr]

/-- With `expect_continue` set, negotiation leaves the `Expect` key alone. -/
theorem negotiatedHeaders_lookup_Expect_skip (r : Request) (b : Body)
    (hb : r.body = some b) (hec : r.expect_continue = true) :
    find_equiv (negotiatedHeaders r) "Expect" = find_equiv r.headers "Expect" := by
  rw [negotiatedHeaders_some r b hb]
  by_cases hct : r.content_type <;>
    simp [hct, hec, find_equiv_append_other _ _ _ _
            (by decide : "Expect" ≠ "Content-Type"),
          negotiateSize_lookup_other _ _ _ _ _
            (by decide : "Expect" ≠ "Transfer-Encoding")]

/-- Without `expect_continue`, negotiation synthesizes an empty-valued
`Expect` header. -/
theorem negotiatedHeaders_lookup_Expect_add (r : Request) (b : Body)
    (hb : r.body = some b) (hec : r.expect_continue = false)
    (hnone : find_equiv r.headers "Expect" = none) :
    find_equiv (negotiatedHeaders r) "Expect" = some [""] := by
  rw [negotiatedHeaders_some r b hb]
  have hfr : find_equiv (negotiateSize r.method b r.body_type r.headers).1
      "Expect" = none := by
    rw [negotiateSize_lookup_other _ _ _ _ _ (by decide)]
    exact hnone
  by_cases hct : r.content_type <;>
    simp [hct, hec, find_equiv_append_self,
          find_equiv_append_other _ _ _ _ (by decide : "Expect" ≠ "Content-Type"), hfr]

/-! ### session-state lemmas -/

theorem applyTrace_append (s : SessionState) (t1 t2 : List EngineCall) :
    applyTrace s (t1 ++ t2) = applyTrace (applyTrace s t1) t2 := by
  simp [applyTrace, List.foldl_append]

theorem applyTrace_followCalls (s : SessionState) (r : Request) :
    applyTrace s (followCalls r) = s := by
  unfold followCalls
  by_cases h : r.follow <;> simp [h, applyTrace, applyCall]

theorem applyTrace_methodOpts (s : SessionState) (m : Method) (hasBody : Bool)
    (tm : List EngineCall) (h : methodOpts m hasBody = some tm) :
    applyTrace s tm = s := by
  cases m <;> cases hasBody <;> simp [methodOpts] at h <;> rw [← h] <;>
    simp [applyTrace, applyCall]

theorem applyTrace_sizeHints (s : SessionState) (m : Method) (n : Nat) :
    applyTrace s (sizeHints m n) = s := by
  cases m <;> simp [sizeHints, applyTrace, applyCall]

theorem applyTrace_hintCalls (s : SessionState) (r : Request) :
    applyTrace s (hintCalls r) = s := by
  rw [hintCalls_eq]
  cases r.body with
  | none => rfl
  | some b =>
    by_cases hbt : r.body_type
    · simp [hbt, applyTrace]
    · rcases b with ⟨bs⟩
      cases bs with
      | none => simp [hbt, applyTrace]
      | some len => simp [hbt, applyTrace_sizeHints]

/-! ### trace filtering lemmas -/

/-- Size-hint calls issued by body negotiation are all size hints. -/
theorem hintCalls_filter (r : Request) :
    (hintCalls r).filter isSizeHint = hintCalls r := by
  rw [hintCalls_eq]
  cases hb : r.body with
  | none => rfl
  | some b =>
    by_cases hbt : r.body_type
    · simp [hbt]
    · cases hsz : b.size <;> simp [hbt, hsz, sizeHints_filter]

/-- The redirect flag is not a size hint. -/
theorem followCalls_filter (r : Request) :
    (followCalls r).filter isSizeHint = [] := by
  unfold followCalls
  by_cases hf : r.follow <;> simp [hf, isSizeHint]

/-- The header-list installation is not a size hint. -/
theorem headerListCalls_filter (iter : HeaderMap → List (String × List String))
    (r : Request) :
    (headerListCalls iter r).filter isSizeHint = [] := by
  unfold headerListCalls
  by_cases he : (negotiatedHeaders r).isEmpty <;> simp [he, isSizeHint]

/-- The only size hints in an `exec` trace are those of body negotiation. -/
theorem exec_filter_sizeHint (iter : HeaderMap → List (String × List String))
    (r : Request) (tm : List EngineCall) (hr : r.err = none)
    (htm : methodOpts r.method r.body.isSome = some tm) :
    (r.exec iter).trace.filter isSizeHint = hintCalls r := by
  rw [exec_performed iter r tm hr htm]
  simp only [List.filter_append]
  rw [followCalls_filter, methodOpts_no_sizeHint _ _ _ htm, hintCalls_filter,
      headerListCalls_filter]
  simp [isSizeHint]

/-- Method-dispatch calls never install a header list. -/
theorem methodOpts_no_headerList (m : Method) (hasBody : Bool) (tm : List EngineCall)
    (h : methodOpts m hasBody = some tm) (l : List (List Char)) :
    EngineCall.setHeaderList l ∉ tm := by
  cases m <;> cases hasBody <;> simp [methodOpts] at h <;> rw [← h] <;> simp

/-- Size-hint calls never install a header list. -/
theorem hintCalls_no_headerList (r : Request) (l : List (List Char)) :
    EngineCall.setHeaderList l ∉ hintCalls r := by
  rw [hintCalls_eq]
  cases hb : r.body with
  | none => simp
  | some b =>
    by_cases hbt : r.body_type
    · simp [hbt]
    · cases hsz : b.size with
      | none => simp [hbt, hsz]
      | some len => simp [hbt, hsz]; cases hm : r.method <;> simp [sizeHints]

/-- The redirect flag never installs a header list. -/
theorem followCalls_no_headerList (r : Request) (l : List (List Char)) :
    EngineCall.setHeaderList l ∉ followCalls r := by
  unfold followCalls
  by_cases hf : r.follow <;> simp [hf]

/-! ### Claims -/

/-- C9: `header(name, v1)` then `header(name, v2)` makes `get_header(name)`
return `[v1, v2]` in call order; `header` always appends (never overwrites
or deduplicates), leaves other names untouched, and a name never added
yields an absent lookup. -/
theorem C9_header_append_never_overwrites (r : Request) (m : Method)
    (name name' v v1 v2 : String) :
    (r.get_header name = none →
      ((r.header name v1).header name v2).get_header name = some [v1, v2])
    ∧ (r.header name v).get_header name = some ((r.get_header name).getD [] ++ [v])
    ∧ (name' ≠ name → (r.header name v).get_header name' = r.get_header name')
    ∧ (Request.new m).get_header name = none := by
  refine ⟨?_, ?_, ?_, ?_⟩
  · intro h
    simp [Request.header, Request.get_header, find_equiv_append_self,
          Request.get_header] at *
    simp [h, find_equiv_append_self]
  · simp [Request.header, Request.get_header, find_equiv_append_self]
  · intro h
    simp [Request.header, Request.get_header, find_equiv_append_other _ _ _ _ h]
  · simp [Request.new, Request.get_header, find_equiv]

/-- C9 witness: concrete double append and frame instance. -/
theorem C9_witness :
    (((Request.new Method.Get).header "A" "1").header "A" "2").get_header "A" = some ["1", "2"]
    ∧ ((Request.new Method.Get).header "A" "1").get_header "B" =
        (Request.new Method.Get).get_header "B" :=
  ⟨(C9_header_append_never_overwrites (Request.new Method.Get) Method.Get
      "A" "B" "1" "1" "2").1 rfl,
   (C9_header_append_never_overwrites (Request.new Method.Get) Method.Get
      "A" "B" "1" "1" "2").2.2.1 (by decide)⟩

/-- C3: the body-type choice is sticky. `content_length 100` then `chunked`
leaves `Content-Length: 100` and no `Transfer-Encoding`; the reverse order
leaves only `Transfer-Encoding: chunked`. -/
theorem C3_body_type_sticky (r : Request)
    (hbt : r.body_type = false)
    (hcl : r.get_header "Content-Length" = none)
    (hte : r.get_header "Transfer-Encoding" = none) :
    ((r.content_length 100).chunked.get_header "Content-Length" = some ["100"]
      ∧ (r.content_length 100).chunked.get_header "Transfer-Encoding" = none)
    ∧ ((r.chunked.content_length 100).get_header "Transfer-Encoding" = some ["chunked"]
      ∧ (r.chunked.content_length 100).get_header "Content-Length" = none) := by
  have h100 : (toString (100 : Nat)) = "100" := rfl
  have hne : "Transfer-Encoding" ≠ "Content-Length" := by decide
  have hne' : "Content-Length" ≠ "Transfer-Encoding" := by decide
  unfold Request.get_header at hcl hte
  refine ⟨⟨?_, ?_⟩, ?_, ?_⟩
  · simp [Request.content_length, Request.chunked, hbt, h100, Request.get_header,
          find_equiv_append_self, hcl]
  · simp [Request.content_length, Request.chunked, hbt, Request.get_header,
          find_equiv_append_other _ _ _ _ hne, hte]
  · simp [Request.content_length, Request.chunked, hbt, Request.get_header,
          find_equiv_append_self, hte]
  · simp [Request.content_length, Request.chunked, hbt, Request.get_header,
          find_equiv_append_other _ _ _ _ hne', hcl]

/-- C3 witness: the sticky behaviour on a fresh POST request. -/
theorem C3_witness :
    ((Request.new Method.Post).content_length 100).chunked.get_header "Content-Length"
      = some ["100"]
    ∧ ((Request.new Method.Post).content_length 100).chunked.get_header "Transfer-Encoding"
      = none
    ∧ ((Request.new Method.Post).chunked.content_length 100).get_header "Transfer-Encoding"
      = some ["chunked"]
    ∧ ((Request.new Method.Post).chunked.content_length 100).get_header "Content-Length"
      = none :=
  ⟨(C3_body_type_sticky (Request.new Method.Post) rfl rfl rfl).1.1,
   (C3_body_type_sticky (Request.new Method.Post) rfl rfl rfl).1.2,
   (C3_body_type_sticky (Request.new Method.Post) rfl rfl rfl).2.1,
   (C3_body_type_sticky (Request.new Method.Post) rfl rfl rfl).2.2⟩

/-- C2 counterexample: two failing `uri` calls (codes 1 then 2) surface the
*second* error at `exec` — the source overwrites `self.err` unconditionally
on failure, so the first error does not win. -/
theorem C2_counterexample :
    ((((Request.new Method.Get).uri rejectEngine "a").uri rejectEngine "b").exec
        (fun m => m)).outcome = Outcome.deferred 2
    ∧ Outcome.deferred 2 ≠ Outcome.deferred 1 := by
  constructor
  · rfl
  · decide

/-- C2 amended: the deferred error surfaced is that of the *last* failing
`uri` call — a failing call overwrites any recorded error, a successful
call leaves the request unchanged. -/
theorem C2_last_error_wins (r : Request) (engine : String → Option ErrCode)
    (u : String) :
    (∀ e, engine u = some e → (r.uri engine u).err = some e)
    ∧ (engine u = none → r.uri engine u = r) := by
  constructor
  · intro e h; simp [Request.uri, h]
  · intro h; simp [Request.uri, h]

/-- C2 witness: the overwrite and the no-op success on concrete inputs. -/
theorem C2_witness :
    (((Request.new Method.Get).uri rejectEngine "a").uri rejectEngine "b").err = some 2
    ∧ (Request.new Method.Get).uri rejectEngine "c" = Request.new Method.Get :=
  ⟨(C2_last_error_wins ((Request.new Method.Get).uri rejectEngine "a")
      rejectEngine "b").1 2 rfl,
   (C2_last_error_wins (Request.new Method.Get) rejectEngine "c").2 rfl⟩

/-- C1: a recorded deferred error makes `exec` return that error with no
header-reset, method-shape, size-hint, header-list or perform call reaching
the engine (only the redirect flag, issued before the check, may appear). -/
theorem C1_deferred_error_short_circuits (iter : HeaderMap → List (String × List String))
    (r : Request) (e : ErrCode) (h : r.err = some e) :
    (r.exec iter).outcome = Outcome.deferred e
    ∧ (r.exec iter).trace = followCalls r
    ∧ EngineCall.clearHeaders ∉ (r.exec iter).trace
    ∧ EngineCall.perform ∉ (r.exec iter).trace
    ∧ ∀ c ∈ (r.exec iter).trace, ∃ v, c = EngineCall.setFollowLocation v := by
  rw [exec_deferred iter r e h]
  refine ⟨rfl, rfl, ?_, ?_, ?_⟩ <;>
    · unfold followCalls
      by_cases hf : r.follow <;> simp [hf]

/-- C1 witness: an invalid URI short-circuits a concrete GET. -/
theorem C1_witness :
    ((((Request.new Method.Get).uri rejectEngine "a").exec (fun m => m)).outcome
      = Outcome.deferred 1)
    ∧ EngineCall.perform ∉
        (((Request.new Method.Get).uri rejectEngine "a").exec (fun m => m)).trace :=
  ⟨(C1_deferred_error_short_circuits (fun m => m) _ 1 rfl).1,
   (C1_deferred_error_short_circuits (fun m => m) _ 1 rfl).2.2.2.1⟩

/-- C6: for DELETE, `exec` issues the upload-mode option exactly when a body
is present, immediately before the custom-method override; and DELETE is
the only method whose dispatch calls depend on body presence. -/
theorem C6_delete_body_dependent (iter : HeaderMap → List (String × List String))
    (r : Request) (hr : r.err = none) (hm : r.method = Method.Delete) :
    ((r.exec iter).trace =
      followCalls r ++ [EngineCall.clearHeaders] ++
      ((if r.body.isSome then [EngineCall.setUpload 1] else []) ++
       [EngineCall.setCustomRequest "DELETE"]) ++
      (hintCalls r ++ headerListCalls iter r ++ [EngineCall.perform]))
    ∧ ∀ m b b', methodOpts m b = methodOpts m b' ∨ m = Method.Delete := by
  constructor
  · have he := exec_performed iter r
      ((if r.body.isSome then [EngineCall.setUpload 1] else []) ++
        [EngineCall.setCustomRequest "DELETE"]) hr (by rw [hm]; rfl)
    rw [he]
    simp [List.append_assoc]
  · intro m b b'
    cases m <;> simp [methodOpts]

/-- C6 witness: a body-less DELETE issues only the custom-method override
(plus reset and perform). -/
theorem C6_witness :
    ((Handle.delete acceptEngine "/x").exec (fun m => m)).trace =
      [EngineCall.clearHeaders, EngineCall.setCustomRequest "DELETE",
       EngineCall.perform] := by
  have h := (C6_delete_body_dependent (fun m => m) (Handle.delete acceptEngine "/x")
    rfl rfl).1
  rw [h]
  decide

/-- C10: every request reachable through the public API carries one of the
five implemented methods, so `exec` never reaches the process-aborting
`unimplemented!()` branch. -/
theorem C10_abort_unreachable (iter : HeaderMap → List (String × List String))
    (r : Request) (h : Built r) :
    r.method ∈ implementedMethods ∧ (r.exec iter).outcome ≠ Outcome.abort := by
  have hm := built_method_implemented r h
  refine ⟨hm, ?_⟩
  cases hr : r.err with
  | some e => simp [exec_deferred iter r e hr]
  | none =>
    obtain ⟨tm, htm⟩ := implemented_methodOpts r.method r.body.isSome hm
    simp [exec_performed iter r tm hr htm]

/-- C10 witness: a concrete publicly-built GET. -/
theorem C10_witness :
    (Handle.get acceptEngine "/x").method ∈ implementedMethods
    ∧ ((Handle.get acceptEngine "/x").exec (fun m => m)).outcome ≠ Outcome.abort :=
  C10_abort_unreachable (fun m => m) _ (Built.get acceptEngine "/x")

/-- C8: past the deferred-error check, the header reset is always issued,
before the method dispatch; consequently a request whose serialized header
map is empty leaves the session with no custom header list, whatever was
installed before. -/
theorem C8_header_reset_always (iter : HeaderMap → List (String × List String))
    (s : SessionState) (r : Request) (hr : r.err = none) :
    (r.exec iter).trace = followCalls r ++ [EngineCall.clearHeaders] ++ afterClear iter r
    ∧ ((r.exec iter).finalHeaders = [] →
        (applyTrace s (r.exec iter).trace).customHeaders = none) := by
  refine ⟨exec_trace_structure iter r hr, ?_⟩
  intro hemp
  rw [exec_trace_structure iter r hr, applyTrace_append, applyTrace_append,
      applyTrace_followCalls]
  cases htm : methodOpts r.method r.body.isSome with
  | none =>
    simp [afterClear, htm, applyTrace, applyCall]
  | some tm =>
    have hfin : (r.exec iter).finalHeaders = negotiatedHeaders r := by
      rw [exec_performed iter r tm hr htm]
    rw [hfin] at hemp
    have hl : headerListCalls iter r = [] := by
      simp [headerListCalls, hemp]
    simp only [afterClear, htm]
    rw [applyTrace_append, applyTrace_append, applyTrace_append,
        applyTrace_methodOpts _ _ _ _ htm, applyTrace_hintCalls, hl]
    simp [applyTrace, applyCall]

/-- C8 witness: a second header-less GET clears a leftover custom list. -/
theorem C8_witness :
    ((Handle.get acceptEngine "/x").exec (fun m => m)).trace =
      followCalls (Handle.get acceptEngine "/x") ++ [EngineCall.clearHeaders] ++
        afterClear (fun m => m) (Handle.get acceptEngine "/x")
    ∧ (applyTrace { customHeaders := some [[Char.ofNat 88]] }
        ((Handle.get acceptEngine "/x").exec (fun m => m)).trace).customHeaders = none :=
  ⟨(C8_header_reset_always (fun m => m) { customHeaders := some [[Char.ofNat 88]] }
      (Handle.get acceptEngine "/x") rfl).1,
   (C8_header_reset_always (fun m => m) { customHeaders := some [[Char.ofNat 88]] }
      (Handle.get acceptEngine "/x") rfl).2 rfl⟩

/-- C4: with a body and no explicit body-type call, an unknown size yields
exactly one synthesized `Transfer-Encoding: chunked` and no size hint or
`Content-Length`; a known size yields the per-method size hint
(`POSTFIELDSIZE` for POST, `INFILESIZE` for PUT/DELETE, nothing for
GET/HEAD) and no chunked header. -/
theorem C4_size_negotiation (iter : HeaderMap → List (String × List String))
    (r : Request) (b : Body) (hr : r.err = none) (hb : r.body = some b)
    (hbt : r.body_type = false) (hm : r.method ∈ implementedMethods)
    (hte : r.get_header "Transfer-Encoding" = none)
    (hcl : r.get_header "Content-Length" = none) :
    (b.size = none →
      find_equiv (r.exec iter).finalHeaders "Transfer-Encoding" = some ["chunked"]
      ∧ find_equiv (r.exec iter).finalHeaders "Content-Length" = none
      ∧ (r.exec iter).trace.filter isSizeHint = [])
    ∧ (∀ n, b.size = some n →
      ((r.exec iter).trace.filter isSizeHint = sizeHints r.method n
       ∧ (r.method = Method.Post → sizeHints r.method n = [EngineCall.setPostFieldSize n])
       ∧ (r.method = Method.Put ∨ r.method = Method.Delete →
           sizeHints r.method n = [EngineCall.setInFileSize n])
       ∧ (r.method = Method.Get ∨ r.method = Method.Head → sizeHints r.method n = [])
       ∧ find_equiv (r.exec iter).finalHeaders "Transfer-Encoding" = none)) := by
  unfold Request.get_header at hte hcl
  obtain ⟨tm, htm⟩ := implemented_methodOpts r.method r.body.isSome hm
  have hfin : (r.exec iter).finalHeaders = negotiatedHeaders r := by
    rw [exec_performed iter r tm hr htm]
  have hfil : (r.exec iter).trace.filter isSizeHint = hintCalls r :=
    exec_filter_sizeHint iter r tm hr htm
  have hhint : hintCalls r =
      (if r.body_type then []
       else match b.size with
            | some len => sizeHints r.method len
            | none => []) := by
    rw [hintCalls_eq, hb]
  constructor
  · intro hsz
    refine ⟨?_, ?_, ?_⟩
    · rw [hfin, negotiatedHeaders_lookup_frame r b hb _ (by decide) (by decide)]
      unfold negotiateSize
      simp [hbt, hsz, find_equiv_append_self, hte]
    · rw [hfin, negotiatedHeaders_lookup_frame r b hb _ (by decide) (by decide),
          negotiateSize_lookup_other _ _ _ _ _ (by decide)]
      exact hcl
    · rw [hfil, hhint]
      simp [hbt, hsz]
  · intro n hsz
    refine ⟨?_, ?_, ?_, ?_, ?_⟩
    · rw [hfil, hhint]
      simp [hbt, hsz]
    · intro hp; rw [hp]; rfl
    · intro hp; rcases hp with hp | hp <;> rw [hp] <;> rfl
    · intro hp; rcases hp with hp | hp <;> rw [hp] <;> rfl
    · rw [hfin, negotiatedHeaders_lookup_frame r b hb _ (by decide) (by decide)]
      unfold negotiateSize
      simp [hbt, hsz, hte]

/-- C4 witness: a POST with sized body gets a `POSTFIELDSIZE` hint and no
chunked header; the unknown-size case is exercised via a PUT. -/
theorem C4_witness :
    ((Handle.post acceptEngine "/x" { size := some 7 }).exec
        (fun m => m)).trace.filter isSizeHint = [EngineCall.setPostFieldSize 7]
    ∧ find_equiv ((Handle.put acceptEngine "/x" { size := none }).exec
        (fun m => m)).finalHeaders "Transfer-Encoding" = some ["chunked"] :=
  ⟨by
    have h := ((C4_size_negotiation (fun m => m)
      (Handle.post acceptEngine "/x" { size := some 7 }) { size := some 7 }
      rfl rfl rfl (by decide) rfl rfl).2 7 rfl).1
    rw [h]; rfl,
   ((C4_size_negotiation (fun m => m)
      (Handle.put acceptEngine "/x" { size := none }) { size := none }
      rfl rfl rfl (by decide) rfl rfl).1 rfl).1⟩

/-- C5: Content-Type and Expect synthesis happens exactly when a body is
present: no body leaves the header map untouched; a body with no explicit
Content-Type gains exactly `Content-Type: application/octet-stream`; a body
gains an empty-valued `Expect` header unless `expect_continue()` was
called. -/
theorem C5_content_type_expect_synthesis (iter : HeaderMap → List (String × List String))
    (r : Request) :
    (r.body = none → (r.exec iter).finalHeaders = r.headers)
    ∧ (∀ b, r.body = some b → r.err = none → r.method ∈ implementedMethods →
       ((r.content_type = false → r.get_header "Content-Type" = none →
          find_equiv (r.exec iter).finalHeaders "Content-Type"
            = some ["application/octet-stream"])
        ∧ (r.expect_continue = true →
          find_equiv (r.exec iter).finalHeaders "Expect" = r.get_header "Expect")
        ∧ (r.expect_continue = false → r.get_header "Expect" = none →
          find_equiv (r.exec iter).finalHeaders "Expect" = some [""]))) := by
  constructor
  · exact finalHeaders_body_none iter r
  · intro b hb hr hm
    obtain ⟨tm, htm⟩ := implemented_methodOpts r.method r.body.isSome hm
    have hfin : (r.exec iter).finalHeaders = negotiatedHeaders r := by
      rw [exec_performed iter r tm hr htm]
    unfold Request.get_header
    rw [hfin]
    refine ⟨?_, ?_, ?_⟩
    · exact fun hct hnone => negotiatedHeaders_lookup_CT r b hb hct hnone
    · exact fun hec => negotiatedHeaders_lookup_Expect_skip r b hb hec
    · exact fun hec hnone => negotiatedHeaders_lookup_Expect_add r b hb hec hnone

/-- C5 witness: a body-less GET keeps its headers; a POST with a body gains
the default Content-Type and the empty Expect. -/
theorem C5_witness :
    ((Handle.get acceptEngine "/x").exec (fun m => m)).finalHeaders
      = (Handle.get acceptEngine "/x").headers
    ∧ find_equiv ((Handle.post acceptEngine "/x" { size := some 3 }).exec
        (fun m => m)).finalHeaders "Content-Type" = some ["application/octet-stream"]
    ∧ find_equiv ((Handle.post acceptEngine "/x" { size := some 3 }).exec
        (fun m => m)).finalHeaders "Expect" = some [""] :=
  ⟨(C5_content_type_expect_synthesis (fun m => m) (Handle.get acceptEngine "/x")).1 rfl,
   ((C5_content_type_expect_synthesis (fun m => m)
      (Handle.post acceptEngine "/x" { size := some 3 })).2 { size := some 3 }
      rfl rfl (by decide)).1 rfl rfl,
   ((C5_content_type_expect_synthesis (fun m => m)
      (Handle.post acceptEngine "/x" { size := some 3 })).2 { size := some 3 }
      rfl rfl (by decide)).2.2 rfl rfl⟩

/-- C7 counterexample: the source iterates a hash map whose enumeration
order is unspecified, modelled here by the `iter` parameter.  With the
entry-reversing enumeration — a permutation of the same entries — the
header list handed to the engine is not the first-insertion-order
serialization, refuting the claimed ordering. -/
theorem C7_counterexample :
    ((twoHdrReq.exec List.reverse).trace =
      [EngineCall.clearHeaders, EngineCall.setHttpGet 1,
       EngineCall.setHeaderList
         (serializeHeaders (List.reverse (twoHdrReq.exec List.reverse).finalHeaders)),
       EngineCall.perform])
    ∧ (List.reverse (twoHdrReq.exec List.reverse).finalHeaders).Perm
        (twoHdrReq.exec List.reverse).finalHeaders
    ∧ serializeHeaders (List.reverse (twoHdrReq.exec List.reverse).finalHeaders) ≠
        serializeHeaders (twoHdrReq.exec List.reverse).finalHeaders := by
  refine ⟨rfl, by decide, by decide⟩

/-- C7 amended: when the multimap is non-empty at serialization time, the
one header list handed to the engine enumerates the entries in the hash
map's (unspecified, parameterized) order, with one `"<name>: <value>"` line
per value in append order, each terminated by a single NUL byte; an empty
multimap hands no list. -/
theorem C7_header_serialization (iter : HeaderMap → List (String × List String))
    (r : Request) (hr : r.err = none) (hm : r.method ∈ implementedMethods) :
    (∀ l, EngineCall.setHeaderList l ∈ (r.exec iter).trace ↔
       ((r.exec iter).finalHeaders ≠ [] ∧
        l = serializeHeaders (iter (r.exec iter).finalHeaders)))
    ∧ serializeHeaders (iter (r.exec iter).finalHeaders)
        = (iter (r.exec iter).finalHeaders).flatMap
            (fun kv => kv.2.map fun v => (kv.1 ++ ": " ++ v).data ++ [Char.ofNat 0]) := by
  obtain ⟨tm, htm⟩ := implemented_methodOpts r.method r.body.isSome hm
  refine ⟨?_, rfl⟩
  intro l
  rw [exec_performed iter r tm hr htm]
  simp only [List.mem_append, List.mem_singleton]
  constructor
  · intro h
    rcases h with ((((h | h) | h) | h) | h) | h
    · exact absurd h (followCalls_no_headerList r l)
    · simp at h
    · exact absurd h (methodOpts_no_headerList _ _ _ htm l)
    · exact absurd h (hintCalls_no_headerList r l)
    · unfold headerListCalls at h
      by_cases he : (negotiatedHeaders r).isEmpty
      · simp [he] at h
      · simp [he] at h
        exact ⟨by simpa [List.isEmpty_iff] using he, h⟩
    · simp at h
  · rintro ⟨hne, hl⟩
    have he : (negotiatedHeaders r).isEmpty = false := by
      simpa [List.isEmpty_iff] using hne
    subst hl
    refine Or.inl (Or.inr ?_)
    simp [headerListCalls, he]

/-- C7 witness: the two-header GET's handed list on a concrete
enumeration. -/
theorem C7_witness :
    EngineCall.setHeaderList
      (serializeHeaders ((twoHdrReq.exec (fun m => m)).finalHeaders))
      ∈ (twoHdrReq.exec (fun m => m)).trace :=
  ((C7_header_serialization (fun m => m) twoHdrReq rfl (by decide)).1 _).mpr
    ⟨by decide, rfl⟩

end Curl
